import Mathlib

/-!
Verification of the routing core of `src/backend/app.py` (a Flask flight-route
service over a directed graph).

The pure data model (edges, attribute records, the weight model, the haversine
heuristic, result assembly with Python-style rounding) is embedded directly from
the source.  Python floats are idealised as elements of a linear ordered field
(`ℚ` for executable instances, `ℝ` where the trigonometric heuristic is
involved); Python `round(x, n)` is idealised as exact round-half-to-even on the
field element.

The shortest-path searches themselves are performed by the `networkx` library
(`nx.shortest_path(..., method="dijkstra")` and `nx.astar_path`), whose code is
not part of the repository; they are modelled from the spec (section 4.4): a
best-first search over a priority frontier keyed by accumulated weight
(uniform-cost) or accumulated weight plus heuristic estimate (heuristic-guided),
terminating on popping the destination or exhausting the frontier.
-/

namespace App

/-- Attribute record stored on a graph edge, mirroring the attribute dict that
`add_edge_to_graph` attaches (`airline`, `duration`, `cost`, `layovers`).
Fields are optional because the Python code reads them with
`attrs.get(key, default)`. -/
structure EdgeAttrs (α : Type) where
  airline : Option String
  duration : Option α
  cost : Option α
  layovers : Option ℤ
deriving DecidableEq

/-- The `FlightEdge` dataclass of `app.py`. -/
structure FlightEdge (α : Type) where
  src : String
  dst : String
  airline : String
  duration : α
  cost : α
  layovers : ℤ
deriving DecidableEq

/-- One stored edge of the directed graph: ordered endpoint pair plus the
attribute record. -/
structure GEdge (α : Type) where
  src : String
  dst : String
  attrs : EdgeAttrs α
deriving DecidableEq

/-- The in-memory directed graph (`nx.DiGraph`): an insertion-ordered list of
edges with at most one edge per ordered `(src, dst)` pair. -/
abbrev Graph (α : Type) := List (GEdge α)

/-- The node set of the graph: every location appearing as an endpoint
(`networkx` adds both endpoints of every edge as nodes). -/
def nodes {α : Type} (G : Graph α) : List String :=
  G.map (fun e => e.src) ++ G.map (fun e => e.dst)

/-- `(src, dst)` keys without duplicates: the dict-backed `nx.DiGraph`
invariant, satisfied by every graph built through `add_edge_to_graph`. -/
def NoDupKeys {α : Type} (G : Graph α) : Prop :=
  (G.map (fun e => (e.src, e.dst))).Nodup

instance {α : Type} (G : Graph α) : Decidable (NoDupKeys G) := by
  unfold NoDupKeys; infer_instance

/-- The attribute-laden stored form of a newly inserted connection. -/
def newEdge {α : Type} (e : FlightEdge α) : GEdge α :=
  ⟨e.src, e.dst, ⟨some e.airline, some e.duration, some e.cost, some e.layovers⟩⟩

/-- `GRAPH.add_edge(...)` / `add_edge_to_graph` of `app.py`: dict semantics,
i.e. an existing edge for the same ordered pair has its attributes replaced in
place, otherwise the edge is appended. -/
def add_edge_to_graph {α : Type} (G : Graph α) (e : FlightEdge α) : Graph α :=
  if G.any (fun g => g.src == e.src && g.dst == e.dst) then
    G.map (fun g => if g.src == e.src && g.dst == e.dst then newEdge e else g)
  else
    G ++ [newEdge e]

/-- `LAYOVER_PENALTY_PER_HOP_HOURS = 1.5` of `app.py`. -/
def LAYOVER_PENALTY_PER_HOP_HOURS {α : Type} [LinearOrderedField α] : α := 3 / 2

/-- `edge_weight` of `app.py`:
`w_duration * attrs.get("duration", 0.0) + w_cost * (attrs.get("cost", 0.0) / 100.0)
 + w_layovers * LAYOVER_PENALTY_PER_HOP_HOURS`. -/
def edge_weight {α : Type} [LinearOrderedField α] (_u _v : String) (attrs : EdgeAttrs α)
    (w_duration w_cost w_layovers : α) : α :=
  w_duration * attrs.duration.getD 0 +
    w_cost * (attrs.cost.getD 0 / 100) +
    w_layovers * LAYOVER_PENALTY_PER_HOP_HOURS

/-- An edge of the request-scoped weighted projection `H`: the original
attributes plus the computed scalar `weight`. -/
structure ProjEdge (α : Type) where
  src : String
  dst : String
  attrs : EdgeAttrs α
  weight : α
deriving DecidableEq

/-- The weighted projection graph `H`. -/
abbrev WGraph (α : Type) := List (ProjEdge α)

/-- The projection loop of `compute_best_route_on_graph`: every edge of `G`
re-added with its attributes plus `weight = edge_weight(...)`. -/
def buildProjection {α : Type} [LinearOrderedField α] (G : Graph α)
    (w_duration w_cost w_layovers : α) : WGraph α :=
  G.map (fun e =>
    ⟨e.src, e.dst, e.attrs, edge_weight e.src e.dst e.attrs w_duration w_cost w_layovers⟩)

/-- Adjacency lookup `H[u][v]` (first — and, without duplicate keys, only —
stored edge for the ordered pair). -/
def findEdge {α : Type} (H : WGraph α) (u v : String) : Option (ProjEdge α) :=
  H.find? (fun e => e.src == u && e.dst == v)

/-- The consecutive pairs of a path, i.e. the traversed connections:
`pathPairs [a, b, c] = [(a, b), (b, c)]`. -/
def pathPairs : List String → List (String × String)
  | a :: b :: rest => (a, b) :: pathPairs (b :: rest)
  | _ => []

/-- Round-half-to-even to the nearest integer: the idealisation of Python 3
`round` on an exact field value. -/
def roundHalfEven {α : Type} [LinearOrderedField α] [FloorRing α] (x : α) : ℤ :=
  let n := Int.floor x
  let r := x - n
  if r < 1 / 2 then n
  else if 1 / 2 < r then n + 1
  else if n % 2 = 0 then n else n + 1

/-- Python `round(x, ndigits)` (idealised: exact round-half-to-even of the
scaled value). -/
def pyRound {α : Type} [LinearOrderedField α] [FloorRing α] (ndigits : ℕ) (x : α) : α :=
  (roundHalfEven (x * 10 ^ ndigits) : α) / 10 ^ ndigits

/-- A frontier entry of the best-first search: current node, accumulated
weight from the source, and the locations already traversed (in reverse,
excluding `node`). -/
structure Entry (α : Type) where
  node : String
  g : α
  rev : List String

/-- Remove a minimum-priority element from the frontier (stable: among equal
priorities the earliest-inserted entry is taken first). -/
def extractMin {α β : Type} [LinearOrder α] (f : β → α) : List β → Option (β × List β)
  | [] => none
  | x :: xs =>
    match extractMin f xs with
    | none => some (x, [])
    | some (y, ys) => if f x ≤ f y then some (x, xs) else some (y, x :: ys)

/-- Outgoing edges of `n` in the weighted projection. -/
def edgesFrom {α : Type} (H : WGraph α) (n : String) : List (ProjEdge α) :=
  H.filter (fun e => e.src == n)

/-- Modelled from the spec: the shortest-path search itself is performed by
the external `networkx` library (not part of the repository), described in the
spec as a priority-frontier search keyed by `accumulated weight + estimate`
(with estimate ≡ 0 for uniform-cost search), relaxing each outgoing
connection, terminating on popping the destination or frontier exhaustion.
`fuel` bounds the number of pops; every caller supplies enough fuel for the
search to run to completion. Returns the found path together with its
accumulated weight, or `none`. -/
def bestFirst {α : Type} [LinearOrderedField α] (H : WGraph α) (h : String → α)
    (goal : String) : ℕ → List (Entry α) → List String → Option (List String × α)
  | 0, _, _ => none
  | fuel + 1, frontier, settled =>
    match extractMin (fun e => e.g + h e.node) frontier with
    | none => none
    | some (e, rest) =>
      if e.node = goal then some ((e.node :: e.rev).reverse, e.g)
      else if e.node ∈ settled then bestFirst H h goal fuel rest settled
      else
        bestFirst H h goal fuel
          (rest ++ (edgesFrom H e.node).map
            (fun pe => ⟨pe.dst, e.g + pe.weight, e.node :: e.rev⟩))
          (e.node :: settled)

/-- One element of the returned `edges` list
(`{"from": u, "to": v, "airline": ..., "duration": ..., "cost": ...}`). -/
structure EdgeView (α : Type) where
  from_ : String
  to_ : String
  airline : Option String
  duration : Option α
  cost : Option α
deriving DecidableEq

/-- The successful result of `compute_best_route_on_graph`: path, traversed
edges and the `totals` dict. -/
structure RouteResult (α : Type) where
  path : List String
  edges : List (EdgeView α)
  duration_hours : α
  cost_usd : α
  layovers : ℤ
  score : α
  method : String
deriving DecidableEq

/-- Per-pair duration read during result assembly:
`float(H[u][v].get("duration", 0.0))`. -/
def durAt {α : Type} [LinearOrderedField α] (H : WGraph α) (uv : String × String) : α :=
  ((findEdge H uv.1 uv.2).bind (fun pe => pe.attrs.duration)).getD 0

/-- Per-pair cost read during result assembly:
`float(H[u][v].get("cost", 0.0))`. -/
def costAt {α : Type} [LinearOrderedField α] (H : WGraph α) (uv : String × String) : α :=
  ((findEdge H uv.1 uv.2).bind (fun pe => pe.attrs.cost)).getD 0

/-- Per-pair computed weight read during result assembly:
`H[path[i]][path[i+1]]["weight"]`. -/
def weightAt {α : Type} [LinearOrderedField α] (H : WGraph α) (uv : String × String) : α :=
  ((findEdge H uv.1 uv.2).map (fun pe => pe.weight)).getD 0

/-- The result-assembly tail of `compute_best_route_on_graph`: the edge views,
the rounded totals (`round(total_duration, 2)`, `round(total_cost, 2)`,
`round(score, 3)`) and `max(0, len(path) - 2)` layovers. -/
def assembleResult {α : Type} [LinearOrderedField α] [FloorRing α] (H : WGraph α)
    (method : String) (path : List String) : RouteResult α :=
  { path := path
    edges := (pathPairs path).map (fun uv =>
      match findEdge H uv.1 uv.2 with
      | some pe => ⟨uv.1, uv.2, pe.attrs.airline, pe.attrs.duration, pe.attrs.cost⟩
      | none => ⟨uv.1, uv.2, none, none, none⟩)
    duration_hours := pyRound 2 (((pathPairs path).map (durAt H)).sum)
    cost_usd := pyRound 2 (((pathPairs path).map (costAt H)).sum)
    layovers := max 0 ((path.length : ℤ) - 2)
    score := pyRound 3 (((pathPairs path).map (weightAt H)).sum)
    method := method }

/-- `compute_best_route_on_graph` of `app.py`: `None` when either endpoint is
absent from the node set; otherwise build the weighted projection, run the
selected search (`"a_star"` with the heuristic bound to the destination and
`w_duration`, anything else uniform-cost), and assemble the result, `None`
when the search finds no path.  The heuristic provider is passed as the
`hfun` argument (the source binds `heuristic_duration_only`). -/
def compute_best_route_on_graph {α : Type} [LinearOrderedField α] [FloorRing α]
    (G : Graph α) (src dst : String) (w_duration w_cost w_layovers : α)
    (method : String) (hfun : String → String → α → α) : Option (RouteResult α) :=
  if src ∈ nodes G ∧ dst ∈ nodes G then
    let H := buildProjection G w_duration w_cost w_layovers
    let h : String → α := fun n => if method = "a_star" then hfun n dst w_duration else 0
    match bestFirst H h dst (H.length + 2) [⟨src, 0, []⟩] [] with
    | none => none
    | some (path, _) => some (assembleResult H method path)
  else none

/-- `CRUISE_SPEED_KMPH = 800.0` of `app.py`. -/
noncomputable def CRUISE_SPEED_KMPH : ℝ := 800

/-- `EARTH_R_KM = 6371.0088` of `app.py`. -/
noncomputable def EARTH_R_KM : ℝ := 6371.0088

/-- Python `math.radians`. -/
noncomputable def radians (x : ℝ) : ℝ := x * Real.pi / 180

/-- `haversine_km` of `app.py` (spherical law of haversines). -/
noncomputable def haversine_km (a b : ℝ × ℝ) : ℝ :=
  let lat1 := radians a.1
  let lon1 := radians a.2
  let lat2 := radians b.1
  let lon2 := radians b.2
  let dlat := lat2 - lat1
  let dlon := lon2 - lon1
  let h := Real.sin (dlat / 2) ^ 2 +
    Real.cos lat1 * Real.cos lat2 * Real.sin (dlon / 2) ^ 2
  2 * EARTH_R_KM * Real.arcsin (Real.sqrt h)

/-- The `CITY_COORDS` dict of `app.py`. -/
noncomputable def CITY_COORDS : List (String × (ℝ × ℝ)) :=
  [("Toronto", (43.65107, -79.347015)),
   ("NewYork", (40.712776, -74.005974)),
   ("London", (51.507351, -0.127758)),
   ("Paris", (48.856613, 2.352222)),
   ("Frankfurt", (50.110924, 8.682127)),
   ("Rome", (41.902782, 12.496366))]

/-- `CITY_COORDS.get(name)`. -/
noncomputable def cityCoord (n : String) : Option (ℝ × ℝ) :=
  (CITY_COORDS.find? (fun p => p.1 == n)).map (fun p => p.2)

/-- `heuristic_duration_only` of `app.py`: great-circle distance over cruise
speed, scaled by `w_duration`; `0.0` when either coordinate is unknown. -/
noncomputable def heuristic_duration_only (node goal : String) (w_duration : ℝ) : ℝ :=
  match cityCoord node, cityCoord goal with
  | some a, some b => w_duration * (haversine_km a b / CRUISE_SPEED_KMPH)
  | _, _ => 0

/-- The `SAMPLE_EDGES` dataset of `app.py`. -/
def SAMPLE_EDGES : List (FlightEdge ℚ) :=
  [⟨"Toronto", "NewYork", "AirCanada", 1.5, 220, 0⟩,
   ⟨"Toronto", "London", "AirCanada", 7.2, 520, 0⟩,
   ⟨"NewYork", "London", "Delta", 6.8, 480, 0⟩,
   ⟨"NewYork", "Paris", "Delta", 7.1, 510, 0⟩,
   ⟨"London", "Paris", "BA", 1.1, 120, 0⟩,
   ⟨"London", "Frankfurt", "Lufthansa", 1.4, 140, 0⟩,
   ⟨"Frankfurt", "Paris", "Lufthansa", 1.2, 130, 0⟩,
   ⟨"Toronto", "Frankfurt", "Lufthansa", 7.5, 540, 0⟩,
   ⟨"Paris", "Rome", "AirFrance", 2.0, 160, 0⟩,
   ⟨"Frankfurt", "Rome", "Lufthansa", 2.0, 150, 0⟩]

/-- `load_sample_edges` applied to the empty graph: the boot-time graph. -/
def sampleGraph : Graph ℚ := SAMPLE_EDGES.foldl add_edge_to_graph []

/-- Modelled from the spec: the optional `max_layovers` constraint of spec
sections 4.5 and 6 has no counterpart anywhere in `src/backend/app.py` (no
route-query parameter reads it); per the spec it discards — treats as
"no path" — any leg whose computed `layover_count` exceeds the bound. -/
def query_route_max_layovers {α : Type} [LinearOrderedField α] [FloorRing α]
    (G : Graph α) (src dst : String) (w_duration w_cost w_layovers : α)
    (method : String) (hfun : String → String → α → α) (max_layovers : ℤ) :
    Option (RouteResult α) :=
  match compute_best_route_on_graph G src dst w_duration w_cost w_layovers method hfun with
  | none => none
  | some r => if r.layovers ≤ max_layovers then some r else none

/-- The identically-zero heuristic provider (the uniform-cost runs below never
read it: with `method = "dijkstra"` the heuristic term is the constant `0`). -/
def hzero {α : Type} [LinearOrderedField α] : String → String → α → α := fun _ _ _ => 0

/-- Lookup of the stored connection for an ordered pair in the raw graph. -/
def findGEdge {α : Type} (G : Graph α) (u v : String) : Option (GEdge α) :=
  G.find? (fun e => e.src == u && e.dst == v)

/-- The exact (unrounded) duration of the stored connection for one traversed
pair, `0` when absent — the spec-side per-edge value. -/
def exactDur {α : Type} [LinearOrderedField α] (G : Graph α) (uv : String × String) : α :=
  ((findGEdge G uv.1 uv.2).bind (fun e => e.attrs.duration)).getD 0

/-- The exact (unrounded) cost of the stored connection for one traversed
pair, `0` when absent. -/
def exactCost {α : Type} [LinearOrderedField α] (G : Graph α) (uv : String × String) : α :=
  ((findGEdge G uv.1 uv.2).bind (fun e => e.attrs.cost)).getD 0

/-- The computed edge weight of the stored connection for one traversed pair,
`0` when absent. -/
def exactWeight {α : Type} [LinearOrderedField α] (G : Graph α)
    (w_duration w_cost w_layovers : α) (uv : String × String) : α :=
  match findGEdge G uv.1 uv.2 with
  | some e => edge_weight uv.1 uv.2 e.attrs w_duration w_cost w_layovers
  | none => 0

/-- `p` is a traversal of `G` from `src` to `dst`: nonempty, correct
endpoints, and every consecutive pair is a stored connection. -/
def IsTraversal {α : Type} (G : Graph α) (src dst : String) (p : List String) : Prop :=
  p ≠ [] ∧ p.head? = some src ∧ p.getLast? = some dst ∧
    ∀ uv ∈ pathPairs p, ∃ e ∈ G, e.src = uv.1 ∧ e.dst = uv.2

/-- `p` is a traversal of the weighted projection `H` from `src` to `dst`. -/
def IsWTraversal {α : Type} (H : WGraph α) (src dst : String) (p : List String) : Prop :=
  p ≠ [] ∧ p.head? = some src ∧ p.getLast? = some dst ∧
    ∀ uv ∈ pathPairs p, ∃ e ∈ H, e.src = uv.1 ∧ e.dst = uv.2

/-- The accumulated weight of a path, read back off the projection the way
the result assembly does. -/
def pathSumW {α : Type} [LinearOrderedField α] (H : WGraph α) (p : List String) : α :=
  ((pathPairs p).map (weightAt H)).sum

/-- Duplicate-free `(src, dst)` keys for the weighted projection. -/
def NoDupKeysW {α : Type} (H : WGraph α) : Prop :=
  (H.map (fun e => (e.src, e.dst))).Nodup

/-- The termination potential of the search: frontier size plus number of
edges leaving unsettled nodes. -/
def phi {α : Type} (H : WGraph α) (frontier : List (Entry α)) (settled : List String) : ℕ :=
  frontier.length + (H.filter (fun e => decide (e.src ∉ settled))).length

/-- The invariant carried by every frontier entry: its recorded path is a
traversal from the source and its accumulated weight is that path's weight
sum. -/
def EntryInv {α : Type} [LinearOrderedField α] (H : WGraph α) (src : String)
    (e : Entry α) : Prop :=
  IsWTraversal H src e.node ((e.node :: e.rev).reverse) ∧
    e.g = pathSumW H ((e.node :: e.rev).reverse)

/-- Default result value (used only to name concrete witness results). -/
instance {α : Type} [LinearOrderedField α] : Inhabited (RouteResult α) :=
  ⟨⟨[], [], 0, 0, 0, 0, ""⟩⟩

/-- The two-edge graph of the spec's worked example:
Toronto→NewYork (1.5 h, 220) and NewYork→London (6.8 h, 480). -/
def twoHopGraph : Graph ℚ :=
  [⟨"Toronto", "NewYork", ⟨some "AirCanada", some 1.5, some 220, some 0⟩⟩,
   ⟨"NewYork", "London", ⟨some "Delta", some 6.8, some 480, some 0⟩⟩]

/-- A graph with a direct connection A→B (duration 10) and a strictly cheaper
two-hop alternative A→C→B (duration 1 + 1). -/
def directSlowGraph : Graph ℚ :=
  [⟨"A", "B", ⟨some "x", some 10, some 0, some 0⟩⟩,
   ⟨"A", "C", ⟨some "x", some 1, some 0, some 0⟩⟩,
   ⟨"C", "B", ⟨some "x", some 1, some 0, some 0⟩⟩]

/-- A single-edge graph whose edge weight needs more than three decimal
places: cost 0.1234, so with weights (0, 1, 0) the edge weight is
0.001234. -/
def tinyCostGraph : Graph ℚ :=
  [⟨"A", "B", ⟨some "x", some 1, some (617 / 5000), some 0⟩⟩]

/-- A graph on which the geographic heuristic overestimates: the stored
durations are far shorter than great-circle flight times.  Atlantis has no
stored coordinate; the direct Atlantis→Rome edge (duration 3) is more
expensive than the two-hop route through Toronto (1 + 1). -/
noncomputable def astarTrapGraph : Graph ℝ :=
  [⟨"Atlantis", "Toronto", ⟨some "x", some 1, some 0, some 0⟩⟩,
   ⟨"Toronto", "Rome", ⟨some "x", some 1, some 0, some 0⟩⟩,
   ⟨"Atlantis", "Rome", ⟨some "x", some 3, some 0, some 0⟩⟩]

/-- The weighted projection of `astarTrapGraph` under weights (1, 0, 0),
written out. -/
noncomputable def trapH : WGraph ℝ :=
  [⟨"Atlantis", "Toronto", ⟨some "x", some 1, some 0, some 0⟩, 1⟩,
   ⟨"Toronto", "Rome", ⟨some "x", some 1, some 0, some 0⟩, 1⟩,
   ⟨"Atlantis", "Rome", ⟨some "x", some 3, some 0, some 0⟩, 3⟩]

section Lemmas

variable {α : Type} [LinearOrderedField α]

lemma findEdge_buildProjection (G : Graph α) (wd wc wl : α) (u v : String) :
    findEdge (buildProjection G wd wc wl) u v =
      (findGEdge G u v).map
        (fun e => ⟨e.src, e.dst, e.attrs, edge_weight e.src e.dst e.attrs wd wc wl⟩) := by
  unfold findEdge buildProjection findGEdge
  rw [List.find?_map]
  rfl

lemma weightAt_buildProjection (G : Graph α) (wd wc wl : α) (uv : String × String) :
    weightAt (buildProjection G wd wc wl) uv = exactWeight G wd wc wl uv := by
  unfold weightAt exactWeight
  rw [findEdge_buildProjection]
  cases h : findGEdge G uv.1 uv.2 with
  | none => rfl
  | some e =>
    have h1 := List.find?_some h
    simp only [Bool.and_eq_true, beq_iff_eq] at h1
    simp [h1.1, h1.2]

lemma durAt_buildProjection (G : Graph α) (wd wc wl : α) (uv : String × String) :
    durAt (buildProjection G wd wc wl) uv = exactDur G uv := by
  unfold durAt exactDur
  rw [findEdge_buildProjection]
  cases findGEdge G uv.1 uv.2 <;> rfl

lemma costAt_buildProjection (G : Graph α) (wd wc wl : α) (uv : String × String) :
    costAt (buildProjection G wd wc wl) uv = exactCost G uv := by
  unfold costAt exactCost
  rw [findEdge_buildProjection]
  cases findGEdge G uv.1 uv.2 <;> rfl

lemma weightAt_proj_fun (G : Graph α) (wd wc wl : α) :
    weightAt (buildProjection G wd wc wl) = exactWeight G wd wc wl :=
  funext (weightAt_buildProjection G wd wc wl)

lemma durAt_proj_fun (G : Graph α) (wd wc wl : α) :
    durAt (buildProjection G wd wc wl) = exactDur G :=
  funext (durAt_buildProjection G wd wc wl)

lemma costAt_proj_fun (G : Graph α) (wd wc wl : α) :
    costAt (buildProjection G wd wc wl) = exactCost G :=
  funext (costAt_buildProjection G wd wc wl)

variable [FloorRing α]

/-- Elimination form of a successful `compute_best_route_on_graph` call. -/
lemma compute_eq_some {G : Graph α} {src dst : String} {wd wc wl : α}
    {method : String} {hfun : String → String → α → α} {r : RouteResult α}
    (h : compute_best_route_on_graph G src dst wd wc wl method hfun = some r) :
    (src ∈ nodes G ∧ dst ∈ nodes G) ∧
      ∃ p g, bestFirst (buildProjection G wd wc wl)
          (fun n => if method = "a_star" then hfun n dst wd else 0) dst
          ((buildProjection G wd wc wl).length + 2) [⟨src, 0, []⟩] [] = some (p, g) ∧
        r = assembleResult (buildProjection G wd wc wl) method p := by
  unfold compute_best_route_on_graph at h
  by_cases hmem : src ∈ nodes G ∧ dst ∈ nodes G
  · rw [if_pos hmem] at h
    have h2 : (match bestFirst (buildProjection G wd wc wl)
          (fun n => if method = "a_star" then hfun n dst wd else 0) dst
          ((buildProjection G wd wc wl).length + 2) [⟨src, 0, []⟩] [] with
        | none => none
        | some (path, _) =>
          some (assembleResult (buildProjection G wd wc wl) method path)) = some r := h
    refine ⟨hmem, ?_⟩
    cases hbf : bestFirst (buildProjection G wd wc wl)
        (fun n => if method = "a_star" then hfun n dst wd else 0) dst
        ((buildProjection G wd wc wl).length + 2) [⟨src, 0, []⟩] [] with
    | none =>
      rw [hbf] at h2
      exact absurd h2 (by simp)
    | some pg =>
      obtain ⟨p, g⟩ := pg
      rw [hbf] at h2
      exact ⟨p, g, rfl, (Option.some_injective _ h2).symm⟩
  · rw [if_neg hmem] at h
    exact absurd h (by simp)

end Lemmas

section SearchLemmas

variable {α : Type} {β : Type} [LinearOrderedField α]

lemma extractMin_ne_none [LinearOrder β] (f : γ → β) (x : γ) (xs : List γ) :
    extractMin f (x :: xs) ≠ none := by
  simp only [extractMin]
  cases h : extractMin f xs with
  | none => simp
  | some p =>
    obtain ⟨y, ys⟩ := p
    by_cases hc : f x ≤ f y <;> simp [hc]

lemma extractMin_nil_eq [LinearOrder β] (f : γ → β) (l : List γ) (x : γ) (xs : List γ)
    (h : extractMin f l = some (x, xs)) : l ≠ [] := by
  intro hl
  subst hl
  simp [extractMin] at h

lemma extractMin_eq_none_iff [LinearOrder β] (f : γ → β) (l : List γ) :
    extractMin f l = none ↔ l = [] := by
  cases l with
  | nil => simp [extractMin]
  | cons x xs =>
    simp only [List.cons_ne_nil, iff_false]
    exact extractMin_ne_none f x xs

lemma extractMin_perm [LinearOrder β] (f : γ → β) :
    ∀ (l : List γ) (x : γ) (xs : List γ),
      extractMin f l = some (x, xs) → (x :: xs).Perm l := by
  intro l
  induction l with
  | nil => intro x xs h; simp [extractMin] at h
  | cons a as ih =>
    intro x xs h
    simp only [extractMin] at h
    cases hrec : extractMin f as with
    | none =>
      rw [hrec] at h
      obtain ⟨rfl, rfl⟩ : a = x ∧ ([] : List γ) = xs := by
        simpa [Prod.ext_iff] using h
      have : as = [] := (extractMin_eq_none_iff f as).mp hrec
      subst this
      exact List.Perm.refl _
    | some p =>
      obtain ⟨y, ys⟩ := p
      rw [hrec] at h
      dsimp only at h
      by_cases hc : f a ≤ f y
      · rw [if_pos hc] at h
        obtain ⟨rfl, rfl⟩ : a = x ∧ as = xs := by
          simpa [Prod.ext_iff] using h
        exact List.Perm.refl _
      · rw [if_neg hc] at h
        obtain ⟨rfl, rfl⟩ : y = x ∧ a :: ys = xs := by
          simpa [Prod.ext_iff] using h
        exact (List.Perm.swap a y ys).trans ((ih y ys hrec).cons a)

lemma extractMin_mem [LinearOrder β] (f : γ → β) (l : List γ) (x : γ) (xs : List γ)
    (h : extractMin f l = some (x, xs)) : x ∈ l :=
  (extractMin_perm f l x xs h).subset (List.mem_cons_self x xs)

lemma extractMin_rest_subset [LinearOrder β] (f : γ → β) (l : List γ) (x : γ)
    (xs : List γ) (h : extractMin f l = some (x, xs)) : xs ⊆ l :=
  fun _ he => (extractMin_perm f l x xs h).subset (List.mem_cons_of_mem x he)

lemma extractMin_min [LinearOrder β] (f : γ → β) :
    ∀ (l : List γ) (x : γ) (xs : List γ),
      extractMin f l = some (x, xs) → ∀ y ∈ l, f x ≤ f y := by
  intro l
  induction l with
  | nil => intro x xs h; simp [extractMin] at h
  | cons a as ih =>
    intro x xs h z hz
    simp only [extractMin] at h
    cases hrec : extractMin f as with
    | none =>
      rw [hrec] at h
      obtain ⟨rfl, -⟩ : a = x ∧ ([] : List γ) = xs := by
        simpa [Prod.ext_iff] using h
      have : as = [] := (extractMin_eq_none_iff f as).mp hrec
      subst this
      rcases List.mem_singleton.mp hz with rfl
      exact le_refl _
    | some p =>
      obtain ⟨y, ys⟩ := p
      rw [hrec] at h
      dsimp only at h
      by_cases hc : f a ≤ f y
      · rw [if_pos hc] at h
        obtain ⟨rfl, -⟩ : a = x ∧ as = xs := by
          simpa [Prod.ext_iff] using h
        rcases List.mem_cons.mp hz with rfl | hz'
        · exact le_refl _
        · exact le_trans hc (ih y ys hrec z hz')
      · rw [if_neg hc] at h
        obtain ⟨rfl, -⟩ : y = x ∧ a :: ys = xs := by
          simpa [Prod.ext_iff] using h
        rcases List.mem_cons.mp hz with rfl | hz'
        · exact le_of_lt (lt_of_not_le hc)
        · exact ih y ys hrec z hz'

lemma pathPairs_concat :
    ∀ (p : List String) (n d : String), p.getLast? = some n →
      pathPairs (p ++ [d]) = pathPairs p ++ [(n, d)] := by
  intro p
  induction p with
  | nil => intro n d h; simp at h
  | cons a rest ih =>
    intro n d h
    cases rest with
    | nil =>
      simp only [List.getLast?_singleton, Option.some_inj] at h
      subst h
      rfl
    | cons b rest' =>
      have h' : (b :: rest').getLast? = some n := by
        rwa [List.getLast?_cons_cons] at h
      have := ih n d h'
      show pathPairs (a :: b :: (rest' ++ [d])) = ((a, b) :: pathPairs (b :: rest')) ++ [(n, d)]
      rw [pathPairs, List.cons_append]
      rw [show b :: (rest' ++ [d]) = (b :: rest') ++ [d] from rfl, this]

lemma wtraversal_extend (H : WGraph α) (src n : String) (p : List String)
    (hp : IsWTraversal H src n p) (pe : ProjEdge α) (hpe : pe ∈ H) (hsrc : pe.src = n) :
    IsWTraversal H src pe.dst (p ++ [pe.dst]) := by
  obtain ⟨hne, hhead, hlast, hchain⟩ := hp
  refine ⟨by simp, ?_, List.getLast?_concat p, ?_⟩
  · cases p with
    | nil => exact absurd rfl hne
    | cons a q => simpa using hhead
  · intro uv huv
    rw [pathPairs_concat p n pe.dst hlast] at huv
    rcases List.mem_append.mp huv with h1 | h2
    · exact hchain uv h1
    · rcases List.mem_singleton.mp h2 with rfl
      exact ⟨pe, hpe, hsrc, rfl⟩

lemma mem_edgesFrom (H : WGraph α) (n : String) (pe : ProjEdge α)
    (h : pe ∈ edgesFrom H n) : pe ∈ H ∧ pe.src = n := by
  have := List.mem_filter.mp h
  exact ⟨this.1, by simpa using this.2⟩

/-- Soundness of the modelled search: any returned path is a traversal of the
projection from the source to the goal. -/
lemma bestFirst_sound (H : WGraph α) (h : String → α) (goal src : String) :
    ∀ (fuel : ℕ) (frontier : List (Entry α)) (settled : List String)
      (p : List String) (g : α),
      (∀ e ∈ frontier, IsWTraversal H src e.node ((e.node :: e.rev).reverse)) →
      bestFirst H h goal fuel frontier settled = some (p, g) →
      IsWTraversal H src goal p := by
  intro fuel
  induction fuel with
  | zero =>
    intro _ _ _ _ _ hbf
    simp [bestFirst] at hbf
  | succ fuel ih =>
    intro frontier settled p g hinv hbf
    rw [bestFirst] at hbf
    cases hex : extractMin (fun e => e.g + h e.node) frontier with
    | none => rw [hex] at hbf; simp at hbf
    | some pr =>
      obtain ⟨x, rest⟩ := pr
      rw [hex] at hbf
      dsimp only at hbf
      by_cases hgoal : x.node = goal
      · rw [if_pos hgoal] at hbf
        simp only [Option.some_inj, Prod.ext_iff] at hbf
        obtain ⟨rfl, -⟩ := hbf
        have hx := hinv x (extractMin_mem _ _ _ _ hex)
        rw [hgoal] at hx
        rwa [show (x.node :: x.rev).reverse = (goal :: x.rev).reverse by rw [hgoal]]
      · rw [if_neg hgoal] at hbf
        by_cases hset : x.node ∈ settled
        · rw [if_pos hset] at hbf
          exact ih rest settled p g
            (fun e he => hinv e (extractMin_rest_subset _ _ _ _ hex he)) hbf
        · rw [if_neg hset] at hbf
          refine ih _ _ p g ?_ hbf
          intro e he
          rcases List.mem_append.mp he with h1 | h2
          · exact hinv e (extractMin_rest_subset _ _ _ _ hex h1)
          · obtain ⟨pe, hpe, rfl⟩ := List.mem_map.mp h2
            obtain ⟨hmem, hsrc⟩ := mem_edgesFrom H x.node pe hpe
            have hx := hinv x (extractMin_mem _ _ _ _ hex)
            have := wtraversal_extend H src x.node _ hx pe hmem hsrc
            simpa [List.reverse_cons] using this

lemma noDupKeysW_buildProjection (G : Graph α) (wd wc wl : α) (hnd : NoDupKeys G) :
    NoDupKeysW (buildProjection G wd wc wl) := by
  unfold NoDupKeysW buildProjection
  rw [List.map_map]
  exact hnd

lemma findEdge_of_mem_nodup (H : WGraph α) (hnd : NoDupKeysW H) (pe : ProjEdge α)
    (hpe : pe ∈ H) : findEdge H pe.src pe.dst = some pe := by
  induction H with
  | nil => exact absurd hpe (List.not_mem_nil pe)
  | cons a H' ih =>
    have hnd' : NoDupKeysW H' := by
      unfold NoDupKeysW at hnd ⊢
      simp only [List.map_cons, List.nodup_cons] at hnd
      exact hnd.2
    rcases List.mem_cons.mp hpe with rfl | hmem
    · exact List.find?_cons_of_pos _ (by simp)
    · have hne : (a.src == pe.src && a.dst == pe.dst) = false := by
        by_contra hcon
        have hk : a.src = pe.src ∧ a.dst = pe.dst := by
          simpa [Bool.and_eq_true, beq_iff_eq] using (Bool.not_eq_false _).mp hcon
        unfold NoDupKeysW at hnd
        simp only [List.map_cons, List.nodup_cons] at hnd
        exact hnd.1 (by
          rw [hk.1, hk.2]
          exact List.mem_map_of_mem _ hmem)
      unfold findEdge
      rw [List.find?_cons_of_neg _ (by simp [hne])]
      exact ih hnd' hmem

lemma pathSumW_extend (H : WGraph α) (p : List String) (n : String)
    (hlast : p.getLast? = some n) (pe : ProjEdge α)
    (hfind : findEdge H n pe.dst = some pe) :
    pathSumW H (p ++ [pe.dst]) = pathSumW H p + pe.weight := by
  unfold pathSumW
  rw [pathPairs_concat p n pe.dst hlast, List.map_append, List.sum_append]
  simp [weightAt, hfind]

lemma phi_settle (H : WGraph α) (n : String) (settled : List String)
    (hn : n ∉ settled) :
    (H.filter (fun e => decide (e.src ∉ (n :: settled)))).length
        + (edgesFrom H n).length
      = (H.filter (fun e => decide (e.src ∉ settled))).length := by
  induction H with
  | nil => simp [edgesFrom]
  | cons a H' ih =>
    unfold edgesFrom at ih ⊢
    rw [List.filter_cons, List.filter_cons, List.filter_cons]
    by_cases h1 : a.src = n
    · have c1 : decide (a.src ∉ (n :: settled)) = false := by simp [h1]
      have c2 : decide (a.src ∉ settled) = true := by
        subst h1
        simp [hn]
      have c3 : (a.src == n) = true := by simp [h1]
      rw [c1, c2, c3]
      simp at ih ⊢
      omega
    · have c3 : (a.src == n) = false := by simp [h1]
      rw [c3]
      by_cases h2 : a.src ∈ settled
      · have c1 : decide (a.src ∉ (n :: settled)) = false := by simp [h2]
        have c2 : decide (a.src ∉ settled) = false := by simp [h2]
        rw [c1, c2]
        simp at ih ⊢
        omega
      · have c1 : decide (a.src ∉ (n :: settled)) = true := by simp [h1, h2]
        have c2 : decide (a.src ∉ settled) = true := by simp [h2]
        rw [c1, c2]
        simp at ih ⊢
        omega

lemma succ_entries_inv (H : WGraph α) (hnd : NoDupKeysW H) (src : String)
    (x : Entry α) (hx : EntryInv H src x) :
    ∀ e ∈ (edgesFrom H x.node).map
      (fun pe => (⟨pe.dst, x.g + pe.weight, x.node :: x.rev⟩ : Entry α)),
      EntryInv H src e := by
  intro e he
  obtain ⟨pe, hpe, rfl⟩ := List.mem_map.mp he
  obtain ⟨hmem, hsrc⟩ := mem_edgesFrom H x.node pe hpe
  obtain ⟨hxpath, hxsum⟩ := hx
  constructor
  · have := wtraversal_extend H src x.node _ hxpath pe hmem hsrc
    simpa [List.reverse_cons] using this
  · have hlast : ((x.node :: x.rev).reverse).getLast? = some x.node := by simp
    have hfind : findEdge H x.node pe.dst = some pe := by
      have := findEdge_of_mem_nodup H hnd pe hmem
      rwa [hsrc] at this
    have hext := pathSumW_extend H _ x.node hlast pe hfind
    show x.g + pe.weight = pathSumW H ((pe.dst :: (x.node :: x.rev)).reverse)
    rw [List.reverse_cons, hext, hxsum]

/-- The completeness-with-bound engine for the uniform-cost search: if some
frontier entry already sits on the goal with accumulated weight at most `w`,
and the fuel exceeds the termination potential, the search returns a path
whose weight sum is at most `w`. -/
lemma bestFirst_goal_bound (H : WGraph α) (hnd : NoDupKeysW H) (src goal : String)
    (w : α) :
    ∀ (fuel : ℕ) (frontier : List (Entry α)) (settled : List String),
      phi H frontier settled < fuel →
      (∀ e ∈ frontier, EntryInv H src e) →
      (∃ e ∈ frontier, e.node = goal ∧ e.g ≤ w) →
      ∃ p g, bestFirst H (fun _ => (0 : α)) goal fuel frontier settled = some (p, g) ∧
        IsWTraversal H src goal p ∧ pathSumW H p = g ∧ g ≤ w := by
  intro fuel
  induction fuel with
  | zero =>
    intro frontier settled hphi _ _
    exact absurd hphi (Nat.not_lt_zero _)
  | succ fuel ih =>
    intro frontier settled hphi hinv hgoal
    obtain ⟨e0, he0mem, he0node, he0w⟩ := hgoal
    cases hex : extractMin (fun e => e.g + (fun _ => (0 : α)) e.node) frontier with
    | none =>
      exact absurd ((extractMin_eq_none_iff _ _).mp hex) (List.ne_nil_of_mem he0mem)
    | some pr =>
      obtain ⟨x, rest⟩ := pr
      have hperm := extractMin_perm _ _ _ _ hex
      have hxmem : x ∈ frontier := extractMin_mem _ _ _ _ hex
      have hmin := extractMin_min _ _ _ _ hex
      have hflen : frontier.length = rest.length + 1 := by
        have := hperm.length_eq
        simp only [List.length_cons] at this
        omega
      rw [bestFirst, hex]
      dsimp only
      by_cases hxg : x.node = goal
      · rw [if_pos hxg]
        obtain ⟨hxpath, hxsum⟩ := hinv x hxmem
        refine ⟨_, x.g, rfl, ?_, hxsum.symm, ?_⟩
        · obtain ⟨a1, a2, a3, a4⟩ := hxpath
          exact ⟨a1, a2, by rw [← hxg]; exact a3, a4⟩
        · have := hmin e0 he0mem
          simp only at this
          calc x.g = x.g + 0 := (add_zero _).symm
            _ ≤ e0.g + 0 := this
            _ = e0.g := add_zero _
            _ ≤ w := he0w
      · rw [if_neg hxg]
        have he0rest : e0 ∈ rest := by
          rcases List.mem_cons.mp (hperm.mem_iff.mpr he0mem) with rfl | h
          · exact absurd he0node hxg
          · exact h
        by_cases hxset : x.node ∈ settled
        · rw [if_pos hxset]
          refine ih rest settled ?_
            (fun e he => hinv e (extractMin_rest_subset _ _ _ _ hex he))
            ⟨e0, he0rest, he0node, he0w⟩
          unfold phi at hphi ⊢
          omega
        · rw [if_neg hxset]
          refine ih _ _ ?_ ?_ ⟨e0, List.mem_append_left _ he0rest, he0node, he0w⟩
          · unfold phi at hphi ⊢
            rw [List.length_append, List.length_map]
            have hstep := phi_settle H x.node settled hxset
            omega
          · intro e he
            rcases List.mem_append.mp he with h1 | h2
            · exact hinv e (extractMin_rest_subset _ _ _ _ hex h1)
            · exact succ_entries_inv H hnd src x (hinv x hxmem) e h2

variable [FloorRing α]

lemma roundHalfEven_le_floor_add_one (x : α) : roundHalfEven x ≤ Int.floor x + 1 := by
  unfold roundHalfEven
  dsimp only
  split_ifs <;> omega

lemma floor_le_roundHalfEven (x : α) : Int.floor x ≤ roundHalfEven x := by
  unfold roundHalfEven
  dsimp only
  split_ifs <;> omega

lemma roundHalfEven_mono {x y : α} (hxy : x ≤ y) :
    roundHalfEven x ≤ roundHalfEven y := by
  have hf : Int.floor x ≤ Int.floor y := Int.floor_le_floor hxy
  by_cases h1 : Int.floor x < Int.floor y
  · calc roundHalfEven x ≤ Int.floor x + 1 := roundHalfEven_le_floor_add_one x
      _ ≤ Int.floor y := by omega
      _ ≤ roundHalfEven y := floor_le_roundHalfEven y
  · have heq : Int.floor x = Int.floor y := le_antisymm hf (by omega)
    have hr : x - (Int.floor x : α) ≤ y - (Int.floor x : α) :=
      sub_le_sub_right hxy _
    unfold roundHalfEven
    dsimp only
    rw [← heq]
    split_ifs <;> first | omega | linarith

lemma pyRound_mono (n : ℕ) {x y : α} (h : x ≤ y) : pyRound n x ≤ pyRound n y := by
  unfold pyRound
  have h10 : (0 : α) < 10 ^ n := by positivity
  rw [div_le_div_iff_of_pos_right h10]
  exact_mod_cast roundHalfEven_mono (mul_le_mul_of_nonneg_right h (le_of_lt h10))

/-- Traversals of the weighted projection are traversals of the raw graph. -/
lemma wtraversal_to_traversal (G : Graph α) (wd wc wl : α) (src dst : String)
    (p : List String) (h : IsWTraversal (buildProjection G wd wc wl) src dst p) :
    IsTraversal G src dst p := by
  obtain ⟨h1, h2, h3, h4⟩ := h
  refine ⟨h1, h2, h3, ?_⟩
  intro uv huv
  obtain ⟨pe, hpe, he1, he2⟩ := h4 uv huv
  obtain ⟨e, he, rfl⟩ := List.mem_map.mp hpe
  exact ⟨e, he, he1, he2⟩

end SearchLemmas

lemma upsert_spec {α : Type} (G : Graph α) (e : FlightEdge α) (hnd : NoDupKeys G) :
    findGEdge (add_edge_to_graph G e) e.src e.dst = some (newEdge e)
      ∧ ((add_edge_to_graph G e).filter
          (fun g => g.src == e.src && g.dst == e.dst)).length = 1 := by
  induction G with
  | nil =>
    constructor
    · simp [add_edge_to_graph, findGEdge, newEdge]
    · simp [add_edge_to_graph, newEdge]
  | cons a G' ih =>
    have hnd' : NoDupKeys G' := by
      have := hnd
      unfold NoDupKeys at this ⊢
      simp only [List.map_cons, List.nodup_cons] at this
      exact this.2
    obtain ⟨ih1, ih2⟩ := ih hnd'
    by_cases hpa : (a.src == e.src && a.dst == e.dst) = true
    · -- the head already stores this key: it is replaced in place, and no
      -- later edge can share the key (keys are nodup)
      have hkey : a.src = e.src ∧ a.dst = e.dst := by
        simpa [Bool.and_eq_true, beq_iff_eq] using hpa
      have hrest : ∀ g ∈ G', (g.src == e.src && g.dst == e.dst) = false := by
        intro g hg
        by_contra hcon
        have hg' : g.src = e.src ∧ g.dst = e.dst := by
          simpa [Bool.and_eq_true, beq_iff_eq] using
            (Bool.not_eq_false _).mp hcon
        have := hnd
        unfold NoDupKeys at this
        simp only [List.map_cons, List.nodup_cons] at this
        exact this.1 (by
          rw [hkey.1, hkey.2, ← hg'.1, ← hg'.2]
          exact List.mem_map_of_mem _ hg)
      have hmapG' : G'.map
          (fun g => if g.src == e.src && g.dst == e.dst then newEdge e else g) = G' := by
        rw [List.map_eq_map_iff.mpr]
        · exact List.map_id G'
        · intro g hg
          simp [hrest g hg]
      have hany : (a :: G').any (fun g => g.src == e.src && g.dst == e.dst) = true := by
        simp [List.any_cons, hpa]
      constructor
      · unfold add_edge_to_graph findGEdge
        rw [if_pos hany]
        simp only [List.map_cons, if_pos hpa, hmapG']
        exact List.find?_cons_of_pos _ (by simp [newEdge])
      · unfold add_edge_to_graph
        rw [if_pos hany]
        simp only [List.map_cons, if_pos hpa, hmapG']
        rw [List.filter_cons_of_pos (by simp [newEdge]),
          List.filter_eq_nil_iff.mpr (by intro g hg; simp [hrest g hg])]
        rfl
    · -- the head has a different key
      have hpa' : (a.src == e.src && a.dst == e.dst) = false :=
        (Bool.not_eq_true _).mp hpa
      by_cases hany : G'.any (fun g => g.src == e.src && g.dst == e.dst) = true
      · -- replacement happens further down the list
        have hanyc : (a :: G').any (fun g => g.src == e.src && g.dst == e.dst) = true := by
          simp [List.any_cons, hany]
        have hGrw : add_edge_to_graph G' e =
            G'.map (fun g => if g.src == e.src && g.dst == e.dst then newEdge e else g) := by
          unfold add_edge_to_graph
          rw [if_pos hany]
        have hfa : (if (a.src == e.src && a.dst == e.dst) = true then newEdge e else a)
            = a := if_neg (by simp [hpa'])
        constructor
        · unfold add_edge_to_graph findGEdge
          rw [if_pos hanyc]
          simp only [List.map_cons, hfa]
          rw [List.find?_cons_of_neg _ (by simp [hpa'])]
          unfold findGEdge at ih1
          rw [hGrw] at ih1
          exact ih1
        · unfold add_edge_to_graph
          rw [if_pos hanyc]
          simp only [List.map_cons, hfa]
          rw [List.filter_cons_of_neg (by simp [hpa'])]
          rw [hGrw] at ih2
          exact ih2
      · -- fresh key: appended at the end
        have hany' : G'.any (fun g => g.src == e.src && g.dst == e.dst) = false :=
          (Bool.not_eq_true _).mp hany
        have hanyc : (a :: G').any (fun g => g.src == e.src && g.dst == e.dst) = false := by
          simp [List.any_cons, hpa', hany']
        have hGrw : add_edge_to_graph G' e = G' ++ [newEdge e] := by
          unfold add_edge_to_graph
          rw [if_neg (by simp [hany'])]
        constructor
        · unfold add_edge_to_graph findGEdge
          rw [if_neg (by simp [hanyc]), List.cons_append,
            List.find?_cons_of_neg _ (by simp [hpa'])]
          unfold findGEdge at ih1
          rw [hGrw] at ih1
          exact ih1
        · unfold add_edge_to_graph
          rw [if_neg (by simp [hanyc]), List.cons_append,
            List.filter_cons_of_neg (by simp [hpa'])]
          rw [hGrw] at ih2
          exact ih2

lemma trapH_eq : buildProjection astarTrapGraph 1 0 0 = trapH := by
  unfold buildProjection astarTrapGraph trapH edge_weight LAYOVER_PENALTY_PER_HOP_HOURS
  norm_num

lemma arcsin_sqrt_ge (v : ℝ) (h1 : (0.2:ℝ) ≤ v) (h2 : v ≤ 1) :
    (0.44:ℝ) ≤ Real.arcsin (Real.sqrt v) := by
  have hsq1 : (0.44:ℝ) ≤ Real.sqrt v := by
    rw [Real.le_sqrt (by norm_num) (by linarith)]
    nlinarith
  have hsq2 : Real.sqrt v ≤ 1 := by
    rw [Real.sqrt_le_left (by norm_num)]
    linarith
  have h0 : (0:ℝ) < Real.sqrt v := lt_of_lt_of_le (by norm_num) hsq1
  have hlt := Real.sin_lt (Real.arcsin_pos.mpr h0)
  have hm1 : (-1:ℝ) ≤ Real.sqrt v := by linarith
  rw [Real.sin_arcsin hm1 hsq2] at hlt
  linarith

set_option maxHeartbeats 1000000 in
lemma hav_toronto_rome :
    (2:ℝ) * 800 < 2 * 6371.0088 * Real.arcsin (Real.sqrt
      (Real.sin ((41.902782 * Real.pi / 180 - 43.65107 * Real.pi / 180) / 2) ^ 2 +
        Real.cos (43.65107 * Real.pi / 180) * Real.cos (41.902782 * Real.pi / 180) *
          Real.sin ((12.496366 * Real.pi / 180 - -79.347015 * Real.pi / 180) / 2) ^ 2)) := by
  have hpu : Real.pi < 3.141593 := Real.pi_lt_d6
  have hpl : 3.141592 < Real.pi := Real.pi_gt_d6
  set q := Real.pi with hq
  have hl1a : (0.76185:ℝ) < 43.65107 * q / 180 := by linarith
  have hl1b : 43.65107 * q / 180 < (0.76186:ℝ) := by linarith
  have hl1sq : (43.65107 * q / 180) ^ 2 ≤ (0.76186:ℝ) ^ 2 :=
    sq_le_sq' (by linarith) (le_of_lt hl1b)
  have hc1 : (0.7097:ℝ) ≤ Real.cos (43.65107 * q / 180) := by
    have hb := Real.one_sub_sq_div_two_le_cos (x := 43.65107 * q / 180)
    nlinarith [hl1sq]
  have hl2a : (0.73134:ℝ) < 41.902782 * q / 180 := by linarith
  have hl2b : 41.902782 * q / 180 < (0.73135:ℝ) := by linarith
  have hl2sq : (41.902782 * q / 180) ^ 2 ≤ (0.73135:ℝ) ^ 2 :=
    sq_le_sq' (by linarith) (le_of_lt hl2b)
  have hc2 : (0.7325:ℝ) ≤ Real.cos (41.902782 * q / 180) := by
    have hb := Real.one_sub_sq_div_two_le_cos (x := 41.902782 * q / 180)
    nlinarith [hl2sq]
  have hx1 : (0.801484:ℝ) < (12.496366 * q / 180 - -79.347015 * q / 180) / 2 := by linarith
  have hx2 : (12.496366 * q / 180 - -79.347015 * q / 180) / 2 < (0.801485:ℝ) := by linarith
  have hs : (0.672:ℝ) ≤ Real.sin ((12.496366 * q / 180 - -79.347015 * q / 180) / 2) := by
    have h3 := Real.sin_gt_sub_cube (by linarith) (by linarith :
      (12.496366 * q / 180 - -79.347015 * q / 180) / 2 ≤ 1)
    have hx3 : ((12.496366 * q / 180 - -79.347015 * q / 180) / 2) ^ 3
        ≤ (0.801485:ℝ) ^ 3 :=
      pow_le_pow_left₀ (by linarith) (le_of_lt hx2) 3
    nlinarith [hx3]
  have hs2 : (0.45:ℝ) ≤ Real.sin ((12.496366 * q / 180 - -79.347015 * q / 180) / 2) ^ 2 := by
    have := pow_le_pow_left₀ (by norm_num : (0:ℝ) ≤ 0.672) hs 2
    nlinarith [this]
  have hX2 : Real.sin ((12.496366 * q / 180 - -79.347015 * q / 180) / 2) ^ 2 ≤ 0.6424 := by
    have h1 := Real.sin_sq_le_sq (x := (12.496366 * q / 180 - -79.347015 * q / 180) / 2)
    have h2 : ((12.496366 * q / 180 - -79.347015 * q / 180) / 2) ^ 2 ≤ (0.801485:ℝ) ^ 2 :=
      sq_le_sq' (by linarith) (le_of_lt hx2)
    nlinarith [h1, h2]
  have hy1 : (-0.0153:ℝ) < (41.902782 * q / 180 - 43.65107 * q / 180) / 2 := by linarith
  have hy2 : (41.902782 * q / 180 - 43.65107 * q / 180) / 2 < (-0.0152:ℝ) := by linarith
  have hd2 : Real.sin ((41.902782 * q / 180 - 43.65107 * q / 180) / 2) ^ 2 ≤ 0.000235 := by
    have h1 := Real.sin_sq_le_sq (x := (41.902782 * q / 180 - 43.65107 * q / 180) / 2)
    have h2 : ((41.902782 * q / 180 - 43.65107 * q / 180) / 2) ^ 2 ≤ (0.0153:ℝ) ^ 2 :=
      sq_le_sq' (by linarith) (by linarith)
    nlinarith [h1, h2]
  have hd0 : (0:ℝ) ≤ Real.sin ((41.902782 * q / 180 - 43.65107 * q / 180) / 2) ^ 2 :=
    sq_nonneg _
  have p1 : (0.7097:ℝ) * 0.7325 ≤ Real.cos (43.65107 * q / 180) * Real.cos (41.902782 * q / 180) :=
    mul_le_mul hc1 hc2 (by norm_num) (by linarith)
  have p2 : ((0.7097:ℝ) * 0.7325) * 0.45 ≤ (Real.cos (43.65107 * q / 180) * Real.cos (41.902782 * q / 180)) *
      Real.sin ((12.496366 * q / 180 - -79.347015 * q / 180) / 2) ^ 2 :=
    mul_le_mul p1 hs2 (by norm_num) (le_trans (by norm_num) p1)
  have hh1 : (0.2:ℝ) ≤ Real.sin ((41.902782 * q / 180 - 43.65107 * q / 180) / 2) ^ 2 +
      Real.cos (43.65107 * q / 180) * Real.cos (41.902782 * q / 180) *
        Real.sin ((12.496366 * q / 180 - -79.347015 * q / 180) / 2) ^ 2 := by
    nlinarith [p2, hd0]
  have hcc : Real.cos (43.65107 * q / 180) * Real.cos (41.902782 * q / 180) ≤ 1 :=
    mul_le_one₀ (Real.cos_le_one _) (by linarith) (Real.cos_le_one _)
  have hh2 : Real.sin ((41.902782 * q / 180 - 43.65107 * q / 180) / 2) ^ 2 +
      Real.cos (43.65107 * q / 180) * Real.cos (41.902782 * q / 180) *
        Real.sin ((12.496366 * q / 180 - -79.347015 * q / 180) / 2) ^ 2 ≤ 1 := by
    have hle : Real.cos (43.65107 * q / 180) * Real.cos (41.902782 * q / 180) *
        Real.sin ((12.496366 * q / 180 - -79.347015 * q / 180) / 2) ^ 2
        ≤ Real.sin ((12.496366 * q / 180 - -79.347015 * q / 180) / 2) ^ 2 :=
      mul_le_of_le_one_left (sq_nonneg _) hcc
    linarith
  have harc := arcsin_sqrt_ge _ hh1 hh2
  linarith [harc]

lemma heuristic_toronto_rome_gt_two :
    2 < heuristic_duration_only "Toronto" "Rome" 1 := by
  have hred : heuristic_duration_only "Toronto" "Rome" 1
      = 1 * (haversine_km (43.65107, -79.347015) (41.902782, 12.496366)
          / CRUISE_SPEED_KMPH) := rfl
  rw [hred, one_mul]
  unfold CRUISE_SPEED_KMPH
  rw [lt_div_iff (by norm_num : (0:ℝ) < 800)]
  unfold haversine_km radians EARTH_R_KM
  dsimp only
  have := hav_toronto_rome
  linarith

lemma heuristic_rome_rome : heuristic_duration_only "Rome" "Rome" 1 = 0 := by
  have hred : heuristic_duration_only "Rome" "Rome" 1
      = 1 * (haversine_km (41.902782, 12.496366) (41.902782, 12.496366)
          / CRUISE_SPEED_KMPH) := rfl
  rw [hred, one_mul]
  unfold haversine_km radians
  dsimp only
  rw [sub_self, sub_self]
  norm_num [Real.sqrt_zero, Real.arcsin_zero]

lemma dijkstra_trap :
    bestFirst trapH (fun _ => (0:ℝ)) "Rome" 5 [⟨"Atlantis", 0, []⟩] []
      = some (["Atlantis", "Toronto", "Rome"], 0 + 1 + 1) := by
  norm_num [bestFirst, extractMin, edgesFrom, trapH]
  rw [if_neg (show ("Atlantis":String) ≠ "Rome" by decide),
    if_neg (show ("Toronto":String) ≠ "Rome" by decide),
    if_neg (show ("Toronto":String) ≠ "Atlantis" by decide)]

lemma astar_trap :
    bestFirst trapH (fun n => heuristic_duration_only n "Rome" 1) "Rome" 5
      [⟨"Atlantis", 0, []⟩] [] = some (["Atlantis", "Rome"], 0 + 3) := by
  have hR := heuristic_rome_rome
  have hT := heuristic_toronto_rome_gt_two
  norm_num [bestFirst, extractMin, edgesFrom, trapH, hR]
  rw [if_neg (show ("Atlantis":String) ≠ "Rome" by decide),
    if_neg (show ¬((1:ℝ) + heuristic_duration_only "Toronto" "Rome" 1 ≤ 3) by linarith)]
  norm_num

lemma roundHalfEven_intCast {α : Type} [LinearOrderedField α] [FloorRing α] (k : ℤ) :
    roundHalfEven ((k : α)) = k := by
  unfold roundHalfEven
  dsimp only
  rw [Int.floor_intCast, sub_self, if_pos (by norm_num : (0:α) < 1/2)]

lemma pyRound_intCast {α : Type} [LinearOrderedField α] [FloorRing α] (d : ℕ) (k : ℤ) :
    pyRound d ((k : α)) = (k : α) := by
  unfold pyRound
  have h1 : (k : α) * 10 ^ d = ((k * 10 ^ d : ℤ) : α) := by push_cast; ring
  rw [h1, roundHalfEven_intCast]
  push_cast
  rw [mul_div_assoc, div_self (by positivity : (10:α) ^ d ≠ 0), mul_one]

lemma compute_eq_assemble {α : Type} [LinearOrderedField α] [FloorRing α]
    (G : Graph α) (src dst : String) (wd wc wl : α) (method : String)
    (hfun : String → String → α → α) (p : List String) (g : α)
    (hmem : src ∈ nodes G ∧ dst ∈ nodes G)
    (hbf : bestFirst (buildProjection G wd wc wl)
        (fun n => if method = "a_star" then hfun n dst wd else 0) dst
        ((buildProjection G wd wc wl).length + 2) [⟨src, 0, []⟩] [] = some (p, g)) :
    compute_best_route_on_graph G src dst wd wc wl method hfun
      = some (assembleResult (buildProjection G wd wc wl) method p) := by
  unfold compute_best_route_on_graph
  rw [if_pos hmem]
  exact (by rw [hbf] :
    (match bestFirst (buildProjection G wd wc wl)
        (fun n => if method = "a_star" then hfun n dst wd else 0) dst
        ((buildProjection G wd wc wl).length + 2) [⟨src, 0, []⟩] [] with
      | none => none
      | some (path, _) => some (assembleResult (buildProjection G wd wc wl) method path))
      = some (assembleResult (buildProjection G wd wc wl) method p))

lemma compute_trap_dijkstra :
    compute_best_route_on_graph astarTrapGraph "Atlantis" "Rome" 1 0 0 "dijkstra"
        heuristic_duration_only
      = some (assembleResult trapH "dijkstra" ["Atlantis", "Toronto", "Rome"]) := by
  have h := compute_eq_assemble astarTrapGraph "Atlantis" "Rome" 1 0 0 "dijkstra"
    heuristic_duration_only ["Atlantis", "Toronto", "Rome"] (0 + 1 + 1)
    ⟨by decide, by decide⟩
    (by
      rw [trapH_eq,
        show (fun n => if ("dijkstra" : String) = "a_star"
          then heuristic_duration_only n "Rome" 1 else (0:ℝ)) = (fun _ => (0:ℝ))
          from funext fun n => if_neg (by decide),
        show trapH.length + 2 = 5 from rfl]
      exact dijkstra_trap)
  rw [h, trapH_eq]

lemma compute_trap_astar :
    compute_best_route_on_graph astarTrapGraph "Atlantis" "Rome" 1 0 0 "a_star"
        heuristic_duration_only
      = some (assembleResult trapH "a_star" ["Atlantis", "Rome"]) := by
  have h := compute_eq_assemble astarTrapGraph "Atlantis" "Rome" 1 0 0 "a_star"
    heuristic_duration_only ["Atlantis", "Rome"] (0 + 3)
    ⟨by decide, by decide⟩
    (by
      rw [trapH_eq,
        show (fun n => if ("a_star" : String) = "a_star"
          then heuristic_duration_only n "Rome" 1 else (0:ℝ))
          = (fun n => heuristic_duration_only n "Rome" 1)
          from funext fun n => if_pos rfl,
        show trapH.length + 2 = 5 from rfl]
      exact astar_trap)
  rw [h, trapH_eq]

lemma trap_scores :
    (assembleResult trapH "dijkstra" ["Atlantis", "Toronto", "Rome"]).score = 2
      ∧ (assembleResult trapH "a_star" ["Atlantis", "Rome"]).score = 3 := by
  have w1 : weightAt trapH ("Atlantis", "Toronto") = 1 := rfl
  have w2 : weightAt trapH ("Toronto", "Rome") = 1 := rfl
  have w3 : weightAt trapH ("Atlantis", "Rome") = 3 := rfl
  constructor
  · show pyRound 3 (((pathPairs ["Atlantis", "Toronto", "Rome"]).map (weightAt trapH)).sum) = 2
    norm_num [pathPairs, w1, w2]
    rw [show (2:ℝ) = ((2:ℤ):ℝ) by norm_num, pyRound_intCast]
  · show pyRound 3 (((pathPairs ["Atlantis", "Rome"]).map (weightAt trapH)).sum) = 3
    norm_num [pathPairs, w3]
    rw [show (3:ℝ) = ((3:ℤ):ℝ) by norm_num, pyRound_intCast]

lemma compute_eq_none_of_bf_none {α : Type} [LinearOrderedField α] [FloorRing α]
    (G : Graph α) (src dst : String) (wd wc wl : α) (method : String)
    (hfun : String → String → α → α)
    (hmem : src ∈ nodes G ∧ dst ∈ nodes G)
    (hbf : bestFirst (buildProjection G wd wc wl)
        (fun n => if method = "a_star" then hfun n dst wd else 0) dst
        ((buildProjection G wd wc wl).length + 2) [⟨src, 0, []⟩] [] = none) :
    compute_best_route_on_graph G src dst wd wc wl method hfun = none := by
  unfold compute_best_route_on_graph
  rw [if_pos hmem]
  exact (by rw [hbf] :
    (match bestFirst (buildProjection G wd wc wl)
        (fun n => if method = "a_star" then hfun n dst wd else 0) dst
        ((buildProjection G wd wc wl).length + 2) [⟨src, 0, []⟩] [] with
      | none => none
      | some (path, _) => some (assembleResult (buildProjection G wd wc wl) method path))
      = none)


/-- C3: if the source or the destination is absent from the graph's location
set, or no traversal connects the source to the destination, the route
computation returns the explicit no-route result `none` (total function — no
exception is modelled or needed). -/
theorem C3_no_route_returns_none {α : Type} [LinearOrderedField α] [FloorRing α]
    (G : Graph α) (src dst : String) (wd wc wl : α) (method : String)
    (hfun : String → String → α → α)
    (h : src ∉ nodes G ∨ dst ∉ nodes G ∨ ¬ ∃ p, IsTraversal G src dst p) :
    compute_best_route_on_graph G src dst wd wc wl method hfun = none := by
  cases hres : compute_best_route_on_graph G src dst wd wc wl method hfun with
  | none => rfl
  | some r =>
    obtain ⟨⟨hs, hd⟩, p, g, hbf, -⟩ := compute_eq_some hres
    rcases h with h | h | h
    · exact absurd hs h
    · exact absurd hd h
    · refine absurd ⟨p, wtraversal_to_traversal G wd wc wl src dst p ?_⟩ h
      refine bestFirst_sound (buildProjection G wd wc wl) _ dst src _ _ _ p g ?_ hbf
      intro e he
      rcases List.mem_singleton.mp he with rfl
      exact ⟨by simp, by simp, by simp, fun uv huv => absurd huv (by simp [pathPairs])⟩

/-- Witness for C3 at a concrete input: a source absent from the graph. -/
theorem C3_witness :
    compute_best_route_on_graph twoHopGraph "Nowhere" "London" 1 0 0 "dijkstra" hzero
      = none :=
  C3_no_route_returns_none twoHopGraph "Nowhere" "London" 1 0 0 "dijkstra" hzero
    (Or.inl (by decide))

set_option maxRecDepth 8000 in
/-- C7: inserting a second connection for an ordered pair replaces the first
(last write wins, exactly one stored edge for the pair), and the replacement
is visible to subsequent route queries: after adding the direct connection
Toronto→London ("Direct", 7.0 h, 500) to the sample graph — which previously
stored Toronto→London at 7.2 h — the duration-weighted query returns the new
one-hop direct path. -/
theorem C7_replacement_visible {α : Type} (G : Graph α) (e : FlightEdge α)
    (hnd : NoDupKeys G) :
    (findGEdge (add_edge_to_graph G e) e.src e.dst = some (newEdge e)
      ∧ ((add_edge_to_graph G e).filter
          (fun g => g.src == e.src && g.dst == e.dst)).length = 1)
    ∧ (compute_best_route_on_graph
          (add_edge_to_graph sampleGraph ⟨"Toronto", "London", "Direct", 7, 500, 0⟩)
          "Toronto" "London" 1 0 0 "dijkstra" hzero).map
            (fun r => (r.path, r.edges.map (fun v => v.airline), r.score))
        = some (["Toronto", "London"], [some "Direct"], 7) :=
  ⟨upsert_spec G e hnd, by with_unfolding_all rfl⟩

set_option maxRecDepth 8000 in
/-- Witness for C7 at a concrete input: replacing the Toronto→NewYork edge of
the two-hop graph. -/
theorem C7_witness :
    (findGEdge (add_edge_to_graph twoHopGraph ⟨"Toronto", "NewYork", "Updated", 2, 100, 0⟩)
          "Toronto" "NewYork"
        = some (newEdge ⟨"Toronto", "NewYork", "Updated", 2, 100, 0⟩)
      ∧ ((add_edge_to_graph twoHopGraph ⟨"Toronto", "NewYork", "Updated", 2, 100, 0⟩).filter
          (fun g => g.src == "Toronto" && g.dst == "NewYork")).length = 1)
    ∧ (compute_best_route_on_graph
          (add_edge_to_graph sampleGraph ⟨"Toronto", "London", "Direct", 7, 500, 0⟩)
          "Toronto" "London" 1 0 0 "dijkstra" hzero).map
            (fun r => (r.path, r.edges.map (fun v => v.airline), r.score))
        = some (["Toronto", "London"], [some "Direct"], 7) :=
  C7_replacement_visible twoHopGraph ⟨"Toronto", "NewYork", "Updated", 2, 100, 0⟩
    (by decide)

set_option maxRecDepth 4000 in
/-- C9 counterexample: in `directSlowGraph` the pair (A, B) is joined by a
direct Connection (duration 10), yet the duration-weighted route query
returns the strictly cheaper two-hop path A→C→B (score 2), not a one-hop
path containing exactly that Connection. -/
theorem C9_counterexample :
    findGEdge directSlowGraph "A" "B"
        = some ⟨"A", "B", ⟨some "x", some 10, some 0, some 0⟩⟩
      ∧ (compute_best_route_on_graph directSlowGraph "A" "B" 1 0 0 "dijkstra" hzero).map
          (fun r => (r.path, r.score)) = some (["A", "C", "B"], 2)
      ∧ (["A", "C", "B"] : List String) ≠ ["A", "B"] :=
  ⟨by with_unfolding_all rfl, by with_unfolding_all rfl, by decide⟩

/-- C9 (amended): for every pair (A, B), A ≠ B, joined by a direct
Connection in a duplicate-key-free graph, the uniform-cost route query
returns a route from A to B — but not necessarily the one-hop direct path:
its reported score is at most the direct Connection's computed weight rounded
to 3 decimal places, and a strictly cheaper multi-hop path is returned
instead when one exists. -/
theorem C9_direct_connection_bound {α : Type} [LinearOrderedField α] [FloorRing α]
    (G : Graph α) (A B : String) (ea : GEdge α) (wd wc wl : α)
    (hfun : String → String → α → α)
    (hnd : NoDupKeys G) (hAB : A ≠ B) (hfind : findGEdge G A B = some ea) :
    ∃ r, compute_best_route_on_graph G A B wd wc wl "dijkstra" hfun = some r ∧
      IsTraversal G A B r.path ∧
      r.score ≤ pyRound 3 (edge_weight A B ea.attrs wd wc wl) := by
  have hmem : ea ∈ G := List.mem_of_find?_eq_some hfind
  have hkey : ea.src = A ∧ ea.dst = B := by
    have := List.find?_some hfind
    simpa [Bool.and_eq_true, beq_iff_eq] using this
  have hA : A ∈ nodes G := by
    unfold nodes
    refine List.mem_append_left _ ?_
    rw [← hkey.1]
    exact List.mem_map_of_mem _ hmem
  have hB : B ∈ nodes G := by
    unfold nodes
    refine List.mem_append_right _ ?_
    rw [← hkey.2]
    exact List.mem_map_of_mem _ hmem
  have hndH : NoDupKeysW (buildProjection G wd wc wl) :=
    noDupKeysW_buildProjection G wd wc wl hnd
  have hfeq : (fun n => if ("dijkstra" : String) = "a_star" then hfun n B wd else (0 : α))
      = (fun _ => (0 : α)) := funext fun n => if_neg (by decide)
  -- the projected direct edge
  have hpe0mem : (⟨ea.src, ea.dst, ea.attrs,
        edge_weight ea.src ea.dst ea.attrs wd wc wl⟩ : ProjEdge α)
      ∈ buildProjection G wd wc wl :=
    List.mem_map_of_mem _ hmem
  have hpe0from : (⟨ea.src, ea.dst, ea.attrs,
        edge_weight ea.src ea.dst ea.attrs wd wc wl⟩ : ProjEdge α)
      ∈ edgesFrom (buildProjection G wd wc wl) A := by
    unfold edgesFrom
    refine List.mem_filter.mpr ⟨hpe0mem, ?_⟩
    simp [hkey.1]
  -- first step of the search: pop the source, push its successors
  have hstep1 : bestFirst (buildProjection G wd wc wl) (fun _ => (0 : α)) B
      ((buildProjection G wd wc wl).length + 2) [⟨A, 0, []⟩] []
      = bestFirst (buildProjection G wd wc wl) (fun _ => (0 : α)) B
        ((buildProjection G wd wc wl).length + 1)
        ((edgesFrom (buildProjection G wd wc wl) A).map
          (fun pe => ⟨pe.dst, 0 + pe.weight, [A]⟩)) [A] := by
    rw [show (buildProjection G wd wc wl).length + 2
        = ((buildProjection G wd wc wl).length + 1) + 1 from rfl, bestFirst]
    rw [show extractMin (fun e => e.g + (fun _ => (0 : α)) e.node)
        [(⟨A, 0, []⟩ : Entry α)] = some (⟨A, 0, []⟩, []) from rfl]
    dsimp only
    rw [if_neg hAB, if_neg (List.not_mem_nil A), List.nil_append]
  -- the initial-entry invariant
  have hx0 : EntryInv (buildProjection G wd wc wl) A (⟨A, 0, []⟩ : Entry α) := by
    constructor
    · exact ⟨by simp, by simp, by simp, fun uv huv => absurd huv (by simp [pathPairs])⟩
    · simp [pathSumW, pathPairs]
  obtain ⟨p, g, hbf2, htrav, hsum, hgle⟩ :=
    bestFirst_goal_bound (buildProjection G wd wc wl) hndH A B
      (edge_weight ea.src ea.dst ea.attrs wd wc wl)
      ((buildProjection G wd wc wl).length + 1)
      ((edgesFrom (buildProjection G wd wc wl) A).map
        (fun pe => ⟨pe.dst, 0 + pe.weight, [A]⟩)) [A]
      (by
        unfold phi
        rw [List.length_map]
        have hstep := phi_settle (buildProjection G wd wc wl) A [] (List.not_mem_nil A)
        have hall : ((buildProjection G wd wc wl).filter
            (fun e => decide (e.src ∉ ([] : List String)))).length
            = (buildProjection G wd wc wl).length := by
          simp
        omega)
      (fun e he => succ_entries_inv (buildProjection G wd wc wl) hndH A ⟨A, 0, []⟩ hx0 e he)
      ⟨⟨ea.dst, 0 + edge_weight ea.src ea.dst ea.attrs wd wc wl, [A]⟩,
        List.mem_map_of_mem _ hpe0from, hkey.2, by simp⟩
  have hbf := hstep1.trans hbf2
  refine ⟨assembleResult (buildProjection G wd wc wl) "dijkstra" p, ?_, ?_, ?_⟩
  · show (if A ∈ nodes G ∧ B ∈ nodes G then
        match bestFirst (buildProjection G wd wc wl)
            (fun n => if ("dijkstra" : String) = "a_star" then hfun n B wd else 0) B
            ((buildProjection G wd wc wl).length + 2) [⟨A, 0, []⟩] [] with
        | none => none
        | some (path, _) =>
          some (assembleResult (buildProjection G wd wc wl) "dijkstra" path)
      else none)
      = some (assembleResult (buildProjection G wd wc wl) "dijkstra" p)
    rw [if_pos ⟨hA, hB⟩, hfeq, hbf]
  · exact wtraversal_to_traversal G wd wc wl A B p htrav
  · show pyRound 3 (((pathPairs p).map (weightAt (buildProjection G wd wc wl))).sum)
      ≤ pyRound 3 (edge_weight A B ea.attrs wd wc wl)
    have hscore : ((pathPairs p).map (weightAt (buildProjection G wd wc wl))).sum = g :=
      hsum
    rw [hscore]
    exact pyRound_mono 3 hgle

set_option maxRecDepth 4000 in
/-- Witness for C9 (amended) at a concrete input: the direct A→B connection
of `directSlowGraph`. -/
theorem C9_witness :
    ∃ r, compute_best_route_on_graph directSlowGraph "A" "B" 1 0 0 "dijkstra" hzero
        = some r ∧
      IsTraversal directSlowGraph "A" "B" r.path ∧
      r.score ≤ pyRound 3 (edge_weight "A" "B"
        (⟨some "x", some 10, some 0, some 0⟩ : EdgeAttrs ℚ) 1 0 0) :=
  C9_direct_connection_bound directSlowGraph "A" "B"
    ⟨"A", "B", ⟨some "x", some 10, some 0, some 0⟩⟩ 1 0 0 hzero
    (by decide) (by decide) (by with_unfolding_all rfl)

/-- C1: `edge_weight` returns exactly
`w_duration * duration_hours + w_cost * (cost_amount / 100.0) + w_layovers * 1.5`;
the layover term is a flat per-edge constant independent of the connection's
own `layover_count` field (two connections differing only in `layover_count`
get equal weight), and a missing attribute contributes as `0.0`. -/
theorem C1_edge_weight_formula {α : Type} [LinearOrderedField α] (u v : String)
    (attrs : EdgeAttrs α) (wd wc wl : α) (l1 l2 : Option ℤ) :
    edge_weight u v attrs wd wc wl
        = wd * attrs.duration.getD 0 + wc * (attrs.cost.getD 0 / 100) + wl * (3 / 2)
      ∧ edge_weight u v ⟨attrs.airline, attrs.duration, attrs.cost, l1⟩ wd wc wl
        = edge_weight u v ⟨attrs.airline, attrs.duration, attrs.cost, l2⟩ wd wc wl
      ∧ edge_weight u v ⟨attrs.airline, none, attrs.cost, attrs.layovers⟩ wd wc wl
        = edge_weight u v ⟨attrs.airline, some 0, attrs.cost, attrs.layovers⟩ wd wc wl
      ∧ edge_weight u v ⟨attrs.airline, attrs.duration, none, attrs.layovers⟩ wd wc wl
        = edge_weight u v ⟨attrs.airline, attrs.duration, some 0, attrs.layovers⟩ wd wc wl :=
  ⟨rfl, rfl, rfl, rfl⟩

/-- C4: for every successfully computed route result, the reported layovers
total equals `max(0, |path| − 2)`. -/
theorem C4_layovers_formula {α : Type} [LinearOrderedField α] [FloorRing α]
    (G : Graph α) (src dst : String) (wd wc wl : α) (method : String)
    (hfun : String → String → α → α) (r : RouteResult α)
    (h : compute_best_route_on_graph G src dst wd wc wl method hfun = some r) :
    r.layovers = max 0 ((r.path.length : ℤ) - 2) := by
  obtain ⟨-, p, g, -, hr⟩ := compute_eq_some h
  subst hr
  rfl

set_option maxRecDepth 4000 in
/-- Witness for C4 at a concrete input: the two-hop sample query (path length
3, reported layovers 1). -/
theorem C4_witness :
    ((compute_best_route_on_graph twoHopGraph "Toronto" "London" 1 0 0 "dijkstra"
        hzero).getD default).layovers
      = max 0 ((((compute_best_route_on_graph twoHopGraph "Toronto" "London" 1 0 0
        "dijkstra" hzero).getD default).path.length : ℤ) - 2) :=
  C4_layovers_formula twoHopGraph "Toronto" "London" 1 0 0 "dijkstra" hzero _
    (by with_unfolding_all rfl)

set_option maxRecDepth 4000 in
/-- C5 counterexample: on the single-edge graph with cost 0.1234 and weights
(0, 1, 0) the traversed connection's computed weight is 0.001234 but the
reported score is the rounded 0.001, so the reported score does not equal the
sum of the computed edge weights. -/
theorem C5_counterexample :
    (compute_best_route_on_graph tinyCostGraph "A" "B" 0 1 0 "dijkstra" hzero).map
        (fun r => r.path) = some ["A", "B"]
      ∧ (compute_best_route_on_graph tinyCostGraph "A" "B" 0 1 0 "dijkstra" hzero).map
        (fun r => r.score) = some (1 / 1000)
      ∧ ((pathPairs ["A", "B"]).map (exactWeight tinyCostGraph 0 1 0)).sum = 617 / 500000
      ∧ (1 / 1000 : ℚ) ≠ 617 / 500000 := by
  refine ⟨by with_unfolding_all rfl, by with_unfolding_all rfl,
    by with_unfolding_all rfl, by norm_num⟩

/-- C5 (amended): for every successfully computed route result, the reported
score equals the sum of the computed edge weights of the traversed
connections along the returned path, rounded half-to-even to 3 decimal
places. -/
theorem C5_score_rounded_sum {α : Type} [LinearOrderedField α] [FloorRing α]
    (G : Graph α) (src dst : String) (wd wc wl : α) (method : String)
    (hfun : String → String → α → α) (r : RouteResult α)
    (h : compute_best_route_on_graph G src dst wd wc wl method hfun = some r) :
    r.score = pyRound 3 (((pathPairs r.path).map (exactWeight G wd wc wl)).sum) := by
  obtain ⟨-, p, g, -, hr⟩ := compute_eq_some h
  subst hr
  simp only [assembleResult, weightAt_proj_fun]

set_option maxRecDepth 4000 in
/-- Witness for C5 (amended) at a concrete input. -/
theorem C5_witness :
    ((compute_best_route_on_graph tinyCostGraph "A" "B" 0 1 0 "dijkstra"
        hzero).getD default).score
      = pyRound 3 (((pathPairs ((compute_best_route_on_graph tinyCostGraph "A" "B" 0 1 0
        "dijkstra" hzero).getD default).path).map (exactWeight tinyCostGraph 0 1 0)).sum) :=
  C5_score_rounded_sum tinyCostGraph "A" "B" 0 1 0 "dijkstra" hzero _
    (by with_unfolding_all rfl)

/-- C10: for every successfully computed route result, the reported totals
are rounded before being returned — `duration_hours` and `cost_usd` to 2
decimal places of the exact per-edge sums, `score` to 3 decimal places of the
exact sum of computed edge weights. -/
theorem C10_totals_rounded {α : Type} [LinearOrderedField α] [FloorRing α]
    (G : Graph α) (src dst : String) (wd wc wl : α) (method : String)
    (hfun : String → String → α → α) (r : RouteResult α)
    (h : compute_best_route_on_graph G src dst wd wc wl method hfun = some r) :
    r.duration_hours = pyRound 2 (((pathPairs r.path).map (exactDur G)).sum)
      ∧ r.cost_usd = pyRound 2 (((pathPairs r.path).map (exactCost G)).sum)
      ∧ r.score = pyRound 3 (((pathPairs r.path).map (exactWeight G wd wc wl)).sum) := by
  obtain ⟨-, p, g, -, hr⟩ := compute_eq_some h
  subst hr
  refine ⟨?_, ?_, ?_⟩ <;>
    simp only [assembleResult, durAt_proj_fun, costAt_proj_fun, weightAt_proj_fun]

set_option maxRecDepth 4000 in
/-- Witness for C10 at a concrete input (the two-hop sample query: totals
8.3 h, 700 USD, score 8.3). -/
theorem C10_witness :
    ((compute_best_route_on_graph twoHopGraph "Toronto" "London" 1 0 0 "dijkstra"
        hzero).getD default).duration_hours
      = pyRound 2 (((pathPairs ((compute_best_route_on_graph twoHopGraph "Toronto" "London"
          1 0 0 "dijkstra" hzero).getD default).path).map (exactDur twoHopGraph)).sum) :=
  (C10_totals_rounded twoHopGraph "Toronto" "London" 1 0 0 "dijkstra" hzero _
    (by with_unfolding_all rfl)).1

/-- C8 (the `max_layovers` bound itself is modelled from the spec, see
`query_route_max_layovers`): when an optional `max_layovers` bound is
supplied, every leg whose computed layover count exceeds the bound is treated
as "no path"; in particular, with `max_layovers = 0`, a query whose only
available path (Toronto→NewYork→London) has one layover returns no route. -/
theorem C8_max_layovers_filters {α : Type} [LinearOrderedField α] [FloorRing α]
    (G : Graph α) (src dst : String) (wd wc wl : α) (method : String)
    (hfun : String → String → α → α) (maxL : ℤ) (r : RouteResult α)
    (h1 : compute_best_route_on_graph G src dst wd wc wl method hfun = some r)
    (h2 : maxL < r.layovers) :
    query_route_max_layovers G src dst wd wc wl method hfun maxL = none
      ∧ query_route_max_layovers twoHopGraph "Toronto" "London" 1 0 0 "dijkstra"
          hzero 0 = none := by
  constructor
  · unfold query_route_max_layovers
    rw [h1]
    exact if_neg (not_le.mpr h2)
  · with_unfolding_all rfl

set_option maxRecDepth 4000 in
/-- Witness for C8 at the spec's concrete example. -/
theorem C8_witness :
    query_route_max_layovers twoHopGraph "Toronto" "London" 1 0 0 "dijkstra" hzero 0
      = none :=
  (C8_max_layovers_filters twoHopGraph "Toronto" "London" 1 0 0 "dijkstra" hzero 0
    ((compute_best_route_on_graph twoHopGraph "Toronto" "London" 1 0 0 "dijkstra"
      hzero).getD default)
    (by with_unfolding_all rfl) (by with_unfolding_all decide)).1

/-- C2 counterexample: on `astarTrapGraph` every projected edge weight is
non-negative (the weights are [1, 1, 3]) and a path Atlantis→Rome exists,
yet the heuristic-guided search returns the direct edge with score 3 while
uniform-cost search returns the two-hop path with score 2: the heuristic
overestimates the remaining cost through Toronto (the stored edge durations
are far shorter than great-circle flight time), so the two methods disagree. -/
theorem C2_counterexample :
    (buildProjection astarTrapGraph 1 0 0).map (fun e => e.weight) = [1, 1, 3]
      ∧ (compute_best_route_on_graph astarTrapGraph "Atlantis" "Rome" 1 0 0 "dijkstra"
          heuristic_duration_only).map (fun r => (r.path, r.score))
        = some (["Atlantis", "Toronto", "Rome"], 2)
      ∧ (compute_best_route_on_graph astarTrapGraph "Atlantis" "Rome" 1 0 0 "a_star"
          heuristic_duration_only).map (fun r => (r.path, r.score))
        = some (["Atlantis", "Rome"], 3)
      ∧ ((3 : ℝ) ≠ 2) := by
  refine ⟨?_, ?_, ?_, by norm_num⟩
  · rw [trapH_eq]
    rfl
  · rw [compute_trap_dijkstra]
    show some ((assembleResult trapH "dijkstra" ["Atlantis", "Toronto", "Rome"]).path,
      (assembleResult trapH "dijkstra" ["Atlantis", "Toronto", "Rome"]).score)
      = some (["Atlantis", "Toronto", "Rome"], 2)
    rw [trap_scores.1]
    rfl
  · rw [compute_trap_astar]
    show some ((assembleResult trapH "a_star" ["Atlantis", "Rome"]).path,
      (assembleResult trapH "a_star" ["Atlantis", "Rome"]).score)
      = some (["Atlantis", "Rome"], 3)
    rw [trap_scores.2]
    rfl

/-- C2 (amended): the heuristic-guided and uniform-cost searches are
guaranteed to return equal total scores when the heuristic degenerates to
zero — in particular whenever the destination has no stored coordinate, so
that the heuristic-guided search falls back to uniform-cost behaviour. -/
theorem C2_equal_score_unknown_destination (G : Graph ℝ) (src dst : String)
    (wd wc wl : ℝ) (h : cityCoord dst = none) :
    (compute_best_route_on_graph G src dst wd wc wl "a_star"
        heuristic_duration_only).map (fun r => r.score)
      = (compute_best_route_on_graph G src dst wd wc wl "dijkstra"
        heuristic_duration_only).map (fun r => r.score) := by
  have hzg : ∀ n w, heuristic_duration_only n dst w = 0 := by
    intro n w
    unfold heuristic_duration_only
    rw [h]
    cases cityCoord n <;> rfl
  have hfa : (fun n => if ("a_star" : String) = "a_star"
      then heuristic_duration_only n dst wd else (0:ℝ)) = (fun _ => (0:ℝ)) :=
    funext fun n => by rw [if_pos rfl, hzg n wd]
  have hfd : (fun n => if ("dijkstra" : String) = "a_star"
      then heuristic_duration_only n dst wd else (0:ℝ)) = (fun _ => (0:ℝ)) :=
    funext fun n => if_neg (by decide)
  by_cases hmem : src ∈ nodes G ∧ dst ∈ nodes G
  · cases hbf : bestFirst (buildProjection G wd wc wl) (fun _ => (0:ℝ)) dst
        ((buildProjection G wd wc wl).length + 2) [⟨src, 0, []⟩] [] with
    | none =>
      rw [compute_eq_none_of_bf_none G src dst wd wc wl "a_star"
          heuristic_duration_only hmem (by rw [hfa]; exact hbf),
        compute_eq_none_of_bf_none G src dst wd wc wl "dijkstra"
          heuristic_duration_only hmem (by rw [hfd]; exact hbf)]
    | some pg =>
      obtain ⟨p, g⟩ := pg
      rw [compute_eq_assemble G src dst wd wc wl "a_star"
          heuristic_duration_only p g hmem (by rw [hfa]; exact hbf),
        compute_eq_assemble G src dst wd wc wl "dijkstra"
          heuristic_duration_only p g hmem (by rw [hfd]; exact hbf)]
      rfl
  · unfold compute_best_route_on_graph
    rw [if_neg hmem, if_neg hmem]

/-- Witness for C2 (amended) at a concrete input: a destination with no
stored coordinate. -/
theorem C2_witness :
    cityCoord "Atlantis" = none
      ∧ (compute_best_route_on_graph ([] : Graph ℝ) "A" "Atlantis" 1 0 0 "a_star"
          heuristic_duration_only).map (fun r => r.score)
        = (compute_best_route_on_graph ([] : Graph ℝ) "A" "Atlantis" 1 0 0 "dijkstra"
          heuristic_duration_only).map (fun r => r.score) :=
  ⟨rfl, C2_equal_score_unknown_destination [] "A" "Atlantis" 1 0 0 rfl⟩


/-- C6: for every pair of locations and every `w_duration`, the heuristic
estimate equals `w_duration` times the great-circle haversine distance
between their coordinates (Earth radius 6371.0088 km) divided by the
800 km/h cruise speed, and it returns exactly `0.0` whenever either
location's coordinate is unknown. -/
theorem C6_heuristic_formula (n goal : String) (w : ℝ) :
    (∀ a b, cityCoord n = some a → cityCoord goal = some b →
        heuristic_duration_only n goal w = w * (haversine_km a b / 800))
      ∧ ((cityCoord n = none ∨ cityCoord goal = none) →
        heuristic_duration_only n goal w = 0)
      ∧ EARTH_R_KM = 6371.0088 ∧ CRUISE_SPEED_KMPH = 800 := by
  refine ⟨?_, ?_, rfl, rfl⟩
  · intro a b ha hb
    unfold heuristic_duration_only
    rw [ha, hb]
    rfl
  · intro hc
    unfold heuristic_duration_only
    rcases hc with hc | hc
    · rw [hc]
    · rw [hc]
      cases cityCoord n <;> rfl

/-- Witness for C6 at concrete inputs: Toronto→Rome (both coordinates
known) and Atlantis→Rome (unknown origin coordinate). -/
theorem C6_witness :
    heuristic_duration_only "Toronto" "Rome" 1
        = 1 * (haversine_km (43.65107, -79.347015) (41.902782, 12.496366) / 800)
      ∧ heuristic_duration_only "Atlantis" "Rome" 1 = 0 :=
  ⟨(C6_heuristic_formula "Toronto" "Rome" 1).1 _ _ rfl rfl,
   (C6_heuristic_formula "Atlantis" "Rome" 1).2.1 (Or.inl rfl)⟩

end App
